import Mathlib

/-!
Verification of the media bridging/relay subsystem in
`addons/webui/media/custom_media.py`.

The Python module is embedded shallowly:

* `player_worker` (lines 81-166) becomes a pure function from the list of
  results the decoder yields to the list of externally visible effects
  (queue puts, sleeps, warnings).  Machine concerns that are timing-only
  (the wall-clock throttle of lines 110-114, the exact sleep durations)
  are represented as opaque effect markers; the `quit_event` is modelled
  as a constant boolean for a whole run, since the claims under study
  concern runs on which it is either never set or set from the start.
* `PlayerStreamTrack.recv` / `RelayStreamTrack.recv` (lines 178-201 and
  418-427) become transition functions on a track state (ready state plus
  queue contents); `None` in the queue is the end sentinel.
* `MediaRelay.__run_track` (lines 481-496) is modelled as a trace of
  atomic events on the event loop: proxy registration (`_start`, the
  first `recv`), proxy removal (`_stop`), a broadcast of one frame to all
  currently registered proxies, and the end-of-stream broadcast.  All of
  these run on the single asyncio loop, so an interleaving at this event
  granularity is faithful.
* `MediaRelay`'s bookkeeping (`__proxies`, `__tasks`, lines 445-476),
  `MediaPlayer._start` / `_stop` (lines 286-317) and `MediaBlackhole`
  (lines 46-69) become explicit state machines driven by operation lists.
-/

namespace CustomMedia

/-! ## Track state and `recv` (lines 169-211, 410-434) -/

/-- The `readyState` of an `aiortc.MediaStreamTrack`: `live` until `stop()`
or the end sentinel is observed, `ended` afterwards. -/
inductive ReadyState where
  | live
  | ended
deriving DecidableEq, Repr

/-- Outcome of one `recv()` call: a frame, or a raised `MediaStreamError`. -/
inductive RecvResult (α : Type) where
  | frame (f : α)
  | mediaStreamError
deriving DecidableEq, Repr

/-- State of a `PlayerStreamTrack` / `RelayStreamTrack`: its ready state and
the contents of its `asyncio.Queue`, oldest element first; `none` is the end
sentinel pushed by the producer. -/
structure TrackState (α : Type) where
  ready : ReadyState
  queue : List (Option α)
deriving DecidableEq, Repr

/-- `MediaStreamTrack.stop()` as it affects the track itself: the ready
state becomes `ended`.  (The calls into the owning player/relay made by the
overridden `stop()` methods are modelled separately by `mediaPlayerStop`
and `relayStopProxy`.) -/
def trackStop {α : Type} (st : TrackState α) : TrackState α :=
  { st with ready := ReadyState.ended }

/-- `PlayerStreamTrack.recv` (lines 178-201).  Returns `none` when the call
would suspend on an empty queue; otherwise the outcome and the successor
state.  Raising on a non-live track happens before anything else; the end
sentinel causes `stop()` and then the raise.  The `_player._start(self)`
call is modelled separately (`mediaPlayerStart`), and the playback-rate
sleep of lines 189-199 is timing-only, so neither appears in the state. -/
def playerTrackRecv {α : Type} (st : TrackState α) :
    Option (RecvResult α × TrackState α) :=
  if st.ready = ReadyState.live then
    match st.queue with
    | [] => none
    | none :: rest => some (RecvResult.mediaStreamError, ⟨ReadyState.ended, rest⟩)
    | some f :: rest => some (RecvResult.frame f, ⟨ReadyState.live, rest⟩)
  else
    some (RecvResult.mediaStreamError, st)

/-- `RelayStreamTrack.recv` (lines 418-427); identical queue discipline to
`PlayerStreamTrack.recv` (the `_relay._start(self)` call is modelled
separately by `relayStartProxy` / the `.startProxy` trace event). -/
def relayTrackRecv {α : Type} (st : TrackState α) :
    Option (RecvResult α × TrackState α) :=
  if st.ready = ReadyState.live then
    match st.queue with
    | [] => none
    | none :: rest => some (RecvResult.mediaStreamError, ⟨ReadyState.ended, rest⟩)
    | some f :: rest => some (RecvResult.frame f, ⟨ReadyState.live, rest⟩)
  else
    some (RecvResult.mediaStreamError, st)

/-- The sequence of outcomes a consumer sees by calling `recv()` repeatedly
on a live track whose queue holds `q`, stopping after the first
`MediaStreamError` (the consumer pattern of `blackhole_consume`,
`MediaRecorder.__run_track` and `MediaRelay.__run_track`). -/
def drainOutcomes {α : Type} : List (Option α) → List (RecvResult α)
  | [] => []
  | none :: _ => [RecvResult.mediaStreamError]
  | some f :: rest => RecvResult.frame f :: drainOutcomes rest

/-! ## The decode worker `player_worker` (lines 81-166) -/

/-- One result of `next(container.decode(*streams))` (line 99), or the
exception that call raised.

* `audio origPts samples`: an `av.AudioFrame`; `samples` is its sample
  count after the resample of lines 117-123 brought it to s16/stereo/48kHz,
  `origPts` its upstream timestamp (which line 126 overwrites).
* `video index pts`: an `av.VideoFrame` with its decoder `frame.index` and
  its `frame.pts` (`none` when the frame has no usable timestamp).
* `eagain`: an `av.FFmpegError` with `errno == EAGAIN` (line 101).
* `streamEnd`: `StopIteration` or any other `av.AVError` (lines 100-108). -/
inductive DecodeResult where
  | audio (origPts : Option Int) (samples : Nat)
  | video (index : Nat) (pts : Option Int)
  | eagain
  | streamEnd
deriving DecidableEq, Repr

/-- Externally visible effects of the worker loop, in program order.

* `sleepRetry`: `time.sleep(0.01)` before retrying on EAGAIN (line 102).
* `capSleep`: `time.sleep(1)` in the `max_frame_to_decode` branch (line 148).
* `warnNoPts`: the `logger.warning` for a video frame without pts (155-157).
* `audioFrame pts samples`: `audio_track._queue.put(frame)` (line 135).
* `videoFrame pts`: `video_track._queue.put(frame)` (line 166).
* `audioSentinel` / `videoSentinel`: the `_queue.put(None)` calls on decode
  termination (lines 105, 107). -/
inductive Emit where
  | sleepRetry
  | capSleep
  | warnNoPts
  | audioFrame (pts : Nat) (samples : Nat)
  | videoFrame (pts : Int)
  | audioSentinel
  | videoSentinel
deriving DecidableEq, Repr

/-- Configuration of one `player_worker` run: whether `audio_track` /
`video_track` are not `None`, the video track's `max_frame_to_decode`
(`≤ 0` meaning no limit, line 209), and whether `quit_event` is set
(constant over the modelled run). -/
structure WorkerCfg where
  hasAudio : Bool
  hasVideo : Bool
  maxFrameToDecode : Int
  quitSet : Bool
deriving DecidableEq, Repr

/-- `int(48000 * AUDIO_PTIME)` with `AUDIO_PTIME = 0.020` (line 87). -/
def audioSamplesPerFrame : Nat := 960

/-- Audio-path state: the running sample counter `audio_samples` (line 86)
and the `av.AudioFifo` contents, represented by the number of samples it
buffers and the pts of the next sample it will hand out.  (The av fifo
propagates the pts written into it; the worker writes gap-free pts, so the
buffered samples always form one contiguous pts range.) -/
structure AudioState where
  audioSamples : Nat
  fifoLen : Nat
  fifoPts : Nat
deriving DecidableEq, Repr

/-- Audio branch of the loop body (lines 116-139): line 126 overwrites the
frame's pts with the running counter (so the upstream pts never reaches
the fifo), line 128 advances the counter, line 130 writes the frame into
the fifo, and lines 131-139 read out as many `audioSamplesPerFrame`-sample
frames as the fifo holds (`fifo.read` returns `None` below that size). -/
def stepAudio (st : AudioState) (samples : Nat) : AudioState × List Emit :=
  let total := st.fifoLen + samples
  let emitted := total / audioSamplesPerFrame
  (⟨st.audioSamples + samples, total % audioSamplesPerFrame,
    st.fifoPts + emitted * audioSamplesPerFrame⟩,
   (List.range emitted).map
     (fun i => Emit.audioFrame (st.fifoPts + i * audioSamplesPerFrame)
                audioSamplesPerFrame))

/-- The cap sleep of lines 141-148: one `time.sleep(1)` when the cap is
enabled and the frame's decoder index exceeds it, nothing otherwise. -/
def capEmitsOf (cfg : WorkerCfg) (index : Nat) : List Emit :=
  if cfg.maxFrameToDecode > 0 ∧ (index : Int) > cfg.maxFrameToDecode then
    [Emit.capSleep]
  else []

/-- Video branch of the loop body (lines 140-166), acting on
`video_first_pts` (line 92).  A `none` result models the bare `return` of
line 150 (quit observed during the cap sleep).  Note that the cap check of
line 143 is an `if`, not a `while`: when `frame.index` exceeds the cap the
worker sleeps once (line 148), checks `quit_event` once (lines 149-150),
and then falls through to the pts handling and the queue put regardless. -/
def stepVideo (cfg : WorkerCfg) (firstPts : Option Int) (index : Nat)
    (pts : Option Int) : Option (Option Int × List Emit) :=
  if (cfg.maxFrameToDecode > 0 ∧ (index : Int) > cfg.maxFrameToDecode) ∧ cfg.quitSet then
    none
  else
    match pts with
    | none => some (firstPts, capEmitsOf cfg index ++ [Emit.warnNoPts])
    | some p =>
      some (some (firstPts.getD p),
        capEmitsOf cfg index ++ [Emit.videoFrame (p - firstPts.getD p)])

/-- Mutable state of one worker run: the audio-path state and
`video_first_pts`. -/
structure WorkerState where
  audio : AudioState
  videoFirstPts : Option Int
deriving DecidableEq, Repr

/-- Initial worker state (lines 82-92): empty fifo, zero sample counter,
`video_first_pts = None`. -/
def initWorker : WorkerState := ⟨⟨0, 0, 0⟩, none⟩

/-- The end sentinels pushed on decode termination: one `None` per active
track, audio first (lines 104-107). -/
def sentinels (cfg : WorkerCfg) : List Emit :=
  (if cfg.hasAudio then [Emit.audioSentinel] else []) ++
  (if cfg.hasVideo then [Emit.videoSentinel] else [])

/-- The worker loop of `player_worker` (lines 97-166) over the list of
results the decoder will yield, producing the list of visible effects.
The loop guard of line 97 re-checks `quit_event` each iteration; frames of
a kind whose track is `None` fall through both `isinstance` branches and
are discarded.  The wall-clock throttle (lines 110-114) only sleeps and is
omitted. -/
def player_worker (cfg : WorkerCfg) : WorkerState → List DecodeResult → List Emit
  | _, [] => []
  | st, r :: rest =>
    if cfg.quitSet then []
    else
      match r with
      | DecodeResult.eagain => Emit.sleepRetry :: player_worker cfg st rest
      | DecodeResult.streamEnd => sentinels cfg
      | DecodeResult.audio _ samples =>
        if cfg.hasAudio then
          let res := stepAudio st.audio samples
          res.2 ++ player_worker cfg { st with audio := res.1 } rest
        else player_worker cfg st rest
      | DecodeResult.video index pts =>
        if cfg.hasVideo then
          match stepVideo cfg st.videoFirstPts index pts with
          | none => []
          | some (fp, es) => es ++ player_worker cfg { st with videoFirstPts := fp } rest
        else player_worker cfg st rest

/-- Worker configuration with only an audio track, no decode cap, quit
never set. -/
def audioCfg : WorkerCfg := ⟨true, false, -1, false⟩

/-- Worker configuration with only a video track, decode cap `cap`, quit
never set. -/
def videoCfg (cap : Int) : WorkerCfg := ⟨false, true, cap, false⟩

/-- Projection of an effect to the audio frame it enqueues, as a
`(pts, samples)` pair. -/
def audioFrameOf : Emit → Option (Nat × Nat)
  | Emit.audioFrame p s => some (p, s)
  | _ => none

/-- Projection of an effect to the corrected pts of the video frame it
enqueues. -/
def videoPtsOf : Emit → Option Int
  | Emit.videoFrame p => some p
  | _ => none

/-- Replace an audio decode result's upstream pts by `none`, leaving
everything else unchanged (used to state that the worker's output does not
depend on upstream audio timestamps). -/
def eraseAudioPts : DecodeResult → DecodeResult
  | DecodeResult.audio _ s => DecodeResult.audio none s
  | r => r

/-- The audio frames an audio-only worker run enqueues for the given
decoded audio input (pts per input frame, sample count after resampling),
the run ending in end-of-stream. -/
def workerAudioFrames (inputs : List (Option Int × Nat)) : List (Nat × Nat) :=
  (player_worker audioCfg initWorker
    ((inputs.map (fun a => DecodeResult.audio a.1 a.2)) ++ [DecodeResult.streamEnd])).filterMap
    audioFrameOf

/-- All effects of a video-only worker run with cap `cap` on the given
decoded video input (decoder index and pts per frame), the run ending in
end-of-stream. -/
def workerVideoOut (cap : Int) (inputs : List (Nat × Option Int)) : List Emit :=
  player_worker (videoCfg cap) initWorker
    ((inputs.map (fun a => DecodeResult.video a.1 a.2)) ++ [DecodeResult.streamEnd])

/-- The corrected pts sequence such a run enqueues. -/
def workerVideoPts (cap : Int) (inputs : List (Nat × Option Int)) : List Int :=
  (workerVideoOut cap inputs).filterMap videoPtsOf

/-- The pts-correction of lines 161-163 as a list transformation: with
`firstPts` the current `video_first_pts`, every retained pts is shifted by
the origin, which is latched at the first retained frame. -/
def correctedList (firstPts : Option Int) : List Int → List Int
  | [] => []
  | p :: rest =>
    (p - firstPts.getD p) :: correctedList (some (firstPts.getD p)) rest

/-! ## The relay fan-out as an event-loop trace (lines 449-496) -/

/-- One atomic step on the asyncio loop affecting a relay source's proxy
set or proxy queues:

* `subscribeEvt pid`: `MediaRelay.subscribe` creates proxy `pid` (lines
  449-457); it does not touch the active proxy set.
* `startEvt pid`: `MediaRelay._start` called from proxy `pid`'s first
  `recv()` (lines 459-465): adds `pid` to the active set if absent.
* `stopEvt pid`: `MediaRelay._stop` from `proxy.stop()` (lines 471-476):
  discards `pid` from the active set.
* `deliverEvt f`: one iteration of `__run_track` delivering frame `f` to
  every currently registered proxy's queue (lines 486-490).
* `eosEvt`: the final iteration, broadcasting the `None` sentinel and
  terminating the task (lines 487-496). -/
inductive RelayEvent (α : Type) where
  | subscribeEvt (pid : Nat)
  | startEvt (pid : Nat)
  | stopEvt (pid : Nat)
  | deliverEvt (f : α)
  | eosEvt
deriving DecidableEq, Repr

/-- Guarded insertion into the registered-proxy set (Python `set.add`
under the `if proxy not in ...` guard of line 463). -/
def regInsert (p : Nat) (reg : List Nat) : List Nat :=
  if p ∈ reg then reg else p :: reg

/-- Effect of one event on the registered-proxy set of the source. -/
def regStep {α : Type} (reg : List Nat) : RelayEvent α → List Nat
  | RelayEvent.subscribeEvt _ => reg
  | RelayEvent.startEvt p => regInsert p reg
  | RelayEvent.stopEvt p => reg.erase p
  | RelayEvent.deliverEvt _ => reg
  | RelayEvent.eosEvt => reg

/-- Whether an event is a broadcast step of the fan-out task. -/
def isBroadcast {α : Type} : RelayEvent α → Bool
  | RelayEvent.deliverEvt _ => true
  | RelayEvent.eosEvt => true
  | _ => false

/-- The queue contents proxy `p` accumulates over an event trace, starting
from registered set `reg`: each `deliverEvt f` appends `some f` to the
queue of every proxy registered at that moment (lines 489-490), `eosEvt`
appends the `none` sentinel and ends the task (lines 491-496), and the
remaining events only update the registered set. -/
def proxyObs {α : Type} (p : Nat) : List Nat → List (RelayEvent α) → List (Option α)
  | _, [] => []
  | reg, e :: rest =>
    match e with
    | RelayEvent.deliverEvt f =>
      (if p ∈ reg then [some f] else []) ++ proxyObs p reg rest
    | RelayEvent.eosEvt => if p ∈ reg then [none] else []
    | _ => proxyObs p (regStep reg e) rest

/-- The full broadcast script of a trace: what a proxy registered from the
start and never stopped would accumulate. -/
def broadcastScript {α : Type} : List (RelayEvent α) → List (Option α)
  | [] => []
  | RelayEvent.deliverEvt f :: rest => some f :: broadcastScript rest
  | RelayEvent.eosEvt :: _ => [none]
  | _ :: rest => broadcastScript rest

/-! ## The relay's bookkeeping state (lines 445-476, 495-496) -/

/-- Lookup in an association list with `Nat` keys (a Python `dict` whose
insertion order we keep). -/
def alookup {β : Type} (k : Nat) : List (Nat × β) → Option β
  | [] => none
  | e :: rest => if e.1 = k then some e.2 else alookup k rest

/-- `MediaRelay`'s state: `__proxies` (source id to registered proxy ids),
the keys of `__tasks` (source ids with a running fan-out future), each
live proxy's `_source` (set to `none` once the proxy stopped), and a
fresh-id counter for newly created proxies. -/
structure MediaRelayState where
  proxies : List (Nat × List Nat)
  tasks : List Nat
  proxySrc : List (Nat × Option Nat)
  nextPid : Nat
deriving DecidableEq, Repr

/-- A freshly constructed `MediaRelay` (line 445-447). -/
def relayInit : MediaRelayState := ⟨[], [], [], 0⟩

/-- `MediaRelay.subscribe(track)` (lines 449-457): create a new proxy
bound to the source, register the source key with an empty proxy set if
unknown, and return the proxy's id.  `__tasks` is untouched. -/
def relaySubscribe (src : Nat) (st : MediaRelayState) : Nat × MediaRelayState :=
  let pid := st.nextPid
  let proxies :=
    if (alookup src st.proxies).isSome then st.proxies else st.proxies ++ [(src, [])]
  (pid, ⟨proxies, st.tasks, st.proxySrc ++ [(pid, some src)], pid + 1⟩)

/-- `MediaRelay._start(proxy)` (lines 459-469): if the proxy still has a
source and the source is registered, add the proxy to the source's set and
spawn the fan-out task if none exists for the source. -/
def relayStartProxy (pid : Nat) (st : MediaRelayState) : MediaRelayState :=
  match alookup pid st.proxySrc with
  | some (some src) =>
    if (alookup src st.proxies).isSome then
      ⟨st.proxies.map (fun e => if e.1 = src then (e.1, regInsert pid e.2) else e),
       if src ∈ st.tasks then st.tasks else src :: st.tasks,
       st.proxySrc, st.nextPid⟩
    else st
  | _ => st

/-- `RelayStreamTrack.stop()` together with `MediaRelay._stop(proxy)`
(lines 429-434, 471-476): discard the proxy from its source's registered
set (when the source is still registered) and clear the proxy's `_source`.
`__tasks` is untouched. -/
def relayStopProxy (pid : Nat) (st : MediaRelayState) : MediaRelayState :=
  match alookup pid st.proxySrc with
  | some (some src) =>
    ⟨(if (alookup src st.proxies).isSome then
        st.proxies.map (fun e => if e.1 = src then (e.1, e.2.erase pid) else e)
      else st.proxies),
     st.tasks,
     st.proxySrc.map (fun e => if e.1 = pid then (e.1, none) else e),
     st.nextPid⟩
  | _ => st

/-- The end of `MediaRelay.__run_track` (lines 495-496): drop the source's
bookkeeping (`del __proxies[track]`, `del __tasks[track]`). -/
def relayFinishTrack (src : Nat) (st : MediaRelayState) : MediaRelayState :=
  ⟨st.proxies.filter (fun e => decide (e.1 ≠ src)), st.tasks.erase src,
   st.proxySrc, st.nextPid⟩

/-- The relay operations the event loop can interleave. -/
inductive RelayOp where
  | subscribeOp (src : Nat)
  | startOp (pid : Nat)
  | stopOp (pid : Nat)
  | finishOp (src : Nat)
deriving DecidableEq, Repr

/-- Apply one relay operation. -/
def applyRelayOp (st : MediaRelayState) : RelayOp → MediaRelayState
  | RelayOp.subscribeOp s => (relaySubscribe s st).2
  | RelayOp.startOp p => relayStartProxy p st
  | RelayOp.stopOp p => relayStopProxy p st
  | RelayOp.finishOp s => relayFinishTrack s st

/-- The relay state after a sequence of operations on a fresh relay. -/
def relayRun (ops : List RelayOp) : MediaRelayState :=
  ops.foldl applyRelayOp relayInit

/-! ## `MediaPlayer._start` / `_stop` (lines 250-317) -/

/-- Observable lifecycle actions of the player, in program order:
spawning the decode thread (lines 290-304), `self.__thread_quit.set()`
(line 311), `self.__thread.join()` (line 312), and
`self.__container.close()` (line 316). -/
inductive PlayerAction where
  | spawnThread
  | setQuit
  | joinThread
  | closeContainer
deriving DecidableEq, Repr

/-- `MediaPlayer`'s lifecycle state: the set `__started` of started track
ids, the number of live decode threads (`__thread` is an `Option`, so this
is 0 or 1 in every reachable state — proved, not assumed), and whether the
container handle is still open. -/
structure MediaPlayerState where
  started : Finset Nat
  threads : Nat
  containerOpen : Bool
deriving DecidableEq

/-- A freshly constructed `MediaPlayer` (lines 250-270): no track started,
no decode thread, container open. -/
def playerInit : MediaPlayerState := ⟨∅, 0, true⟩

/-- `MediaPlayer._start(track)` (lines 286-304): add the track to
`__started`; if no decode thread exists, create the quit event and spawn
the thread. -/
def mediaPlayerStart (tid : Nat) (st : MediaPlayerState) :
    MediaPlayerState × List PlayerAction :=
  let started := insert tid st.started
  if st.threads = 0 then
    (⟨started, st.threads + 1, st.containerOpen⟩, [PlayerAction.spawnThread])
  else
    (⟨started, st.threads, st.containerOpen⟩, [])

/-- `MediaPlayer._stop(track)` (lines 306-317): discard the track from
`__started`; if no started track remains and a thread exists, set the quit
event and join the thread; then, if no started track remains and the
container is open, close it.  The action list records the order. -/
def mediaPlayerStop (tid : Nat) (st : MediaPlayerState) :
    MediaPlayerState × List PlayerAction :=
  let started := st.started.erase tid
  let threadPart :=
    if started = ∅ ∧ st.threads ≠ 0 then
      (st.threads - 1, [PlayerAction.setQuit, PlayerAction.joinThread])
    else (st.threads, [])
  let containerPart :=
    if started = ∅ ∧ st.containerOpen then
      (false, [PlayerAction.closeContainer])
    else (st.containerOpen, [])
  (⟨started, threadPart.1, containerPart.1⟩, threadPart.2 ++ containerPart.2)

/-- The player lifecycle operations: `_start` / `_stop` for a track id
(driven by `PlayerStreamTrack.recv` and `PlayerStreamTrack.stop`). -/
inductive PlayerOp where
  | startOp (tid : Nat)
  | stopOp (tid : Nat)
deriving DecidableEq, Repr

/-- Apply one player lifecycle operation, discarding the action log. -/
def applyPlayerOp (st : MediaPlayerState) : PlayerOp → MediaPlayerState
  | PlayerOp.startOp t => (mediaPlayerStart t st).1
  | PlayerOp.stopOp t => (mediaPlayerStop t st).1

/-- The player state after a sequence of lifecycle operations on a fresh
player. -/
def playerRun (ops : List PlayerOp) : MediaPlayerState :=
  ops.foldl applyPlayerOp playerInit

/-! ## `MediaBlackhole` (lines 46-78) -/

/-- `MediaBlackhole`'s state: `__tracks` as an association list from track
id to whether a consuming task has been attached (`task is not None`),
plus a ghost log of every track for which `start()` ever spawned a task. -/
structure BlackholeState where
  tracks : List (Nat × Bool)
  spawned : List Nat
deriving DecidableEq, Repr

/-- A freshly constructed `MediaBlackhole` (lines 51-52). -/
def bhInit : BlackholeState := ⟨[], []⟩

/-- `MediaBlackhole.addTrack(track)` (lines 54-61): insert the track with
no task only if it is not already present. -/
def bhAddTrack (t : Nat) (st : BlackholeState) : BlackholeState :=
  if (alookup t st.tracks).isSome then st
  else ⟨st.tracks ++ [(t, false)], st.spawned⟩

/-- `MediaBlackhole.start()` (lines 63-69): for every track without a
task, spawn a `blackhole_consume` task; the ghost log records the spawns. -/
def bhStart (st : BlackholeState) : BlackholeState :=
  ⟨st.tracks.map (fun e => (e.1, true)),
   st.spawned ++ (st.tracks.filter (fun e => !e.2)).map Prod.fst⟩

/-- The blackhole operations exercised by the claim: `addTrack` and
`start` (in any number and order). -/
inductive BHOp where
  | addOp (t : Nat)
  | startOp
deriving DecidableEq, Repr

/-- Apply one blackhole operation. -/
def applyBHOp (st : BlackholeState) : BHOp → BlackholeState
  | BHOp.addOp t => bhAddTrack t st
  | BHOp.startOp => bhStart st

/-- The blackhole state after a sequence of operations on a fresh sink. -/
def bhRun (ops : List BHOp) : BlackholeState :=
  ops.foldl applyBHOp bhInit

/-! ## State-machine invariants -/

/-- Invariant of the blackhole state machine: track keys are unique, the
ghost spawn log is duplicate-free, and a track is in the log exactly when
its dict entry carries a task. -/
def bhInvariant (st : BlackholeState) : Prop :=
  (st.tracks.map Prod.fst).Nodup ∧ st.spawned.Nodup ∧
  ∀ t, t ∈ st.spawned ↔ alookup t st.tracks = some true

/-- Invariant of the relay bookkeeping: the task keys are unique (so each
source has at most one fan-out task) and every recorded proxy id is below
the fresh-id counter. -/
def relayInvariant (st : MediaRelayState) : Prop :=
  st.tasks.Nodup ∧ ∀ e ∈ st.proxySrc, e.1 < st.nextPid

/-- Invariant of the player lifecycle: at most one decode thread exists,
and one exists exactly when some track is started. -/
def playerInvariant (st : MediaPlayerState) : Prop :=
  st.threads ≤ 1 ∧ (st.threads = 0 ↔ st.started = ∅)

end CustomMedia

/-! # Supporting lemmas -/

namespace CustomMedia

lemma alookup_append_left {β : Type} {k : Nat} {l1 : List (Nat × β)}
    (l2 : List (Nat × β)) {v : β} (h : alookup k l1 = some v) :
    alookup k (l1 ++ l2) = some v := by
  induction l1 with
  | nil => simp [alookup] at h
  | cons e rest ih =>
    by_cases he : e.1 = k
    · simpa [alookup, he] using h
    · simp only [alookup, he, if_false, List.cons_append] at h ⊢
      exact ih h

lemma alookup_append_right {β : Type} {k : Nat} {l1 : List (Nat × β)}
    (l2 : List (Nat × β)) (h : alookup k l1 = none) :
    alookup k (l1 ++ l2) = alookup k l2 := by
  induction l1 with
  | nil => simp
  | cons e rest ih =>
    by_cases he : e.1 = k
    · simp [alookup, he] at h
    · simp only [alookup, he, if_false, List.cons_append] at h ⊢
      exact ih h

lemma alookup_eq_none {β : Type} {k : Nat} {l : List (Nat × β)} :
    alookup k l = none ↔ k ∉ l.map Prod.fst := by
  induction l with
  | nil => simp [alookup]
  | cons e rest ih =>
    by_cases he : e.1 = k
    · simp [alookup, he]
    · simp only [alookup, he, if_false, List.map_cons, List.mem_cons, ih]
      have hk : ¬(k = e.1) := fun h => he h.symm
      tauto

lemma alookup_map_val {β γ : Type} (f : β → γ) (k : Nat) (l : List (Nat × β)) :
    alookup k (l.map (fun e => (e.1, f e.2))) = (alookup k l).map f := by
  induction l with
  | nil => rfl
  | cons e rest ih => by_cases he : e.1 = k <;> simp [alookup, he, ih]

lemma alookup_of_mem_nodup {β : Type} {k : Nat} {b : β} {l : List (Nat × β)}
    (hnd : (l.map Prod.fst).Nodup) (hmem : (k, b) ∈ l) : alookup k l = some b := by
  induction l with
  | nil => simp at hmem
  | cons e rest ih =>
    simp only [List.map_cons, List.nodup_cons] at hnd
    rcases List.mem_cons.mp hmem with h | h
    · simp [alookup, ← h]
    · have hk : e.1 ≠ k := by
        intro hek
        exact hnd.1 (hek ▸ (List.mem_map.mpr ⟨(k, b), h, rfl⟩))
      simp only [alookup, hk, if_false]
      exact ih hnd.2 h

lemma mem_of_alookup {β : Type} {k : Nat} {b : β} {l : List (Nat × β)}
    (h : alookup k l = some b) : (k, b) ∈ l := by
  induction l with
  | nil => simp [alookup] at h
  | cons e rest ih =>
    by_cases he : e.1 = k
    · simp only [alookup, he, if_true, Option.some.injEq] at h
      exact List.mem_cons.mpr (Or.inl (by rw [← he, ← h]))
    · simp only [alookup, he, if_false] at h
      exact List.mem_cons_of_mem _ (ih h)

end CustomMedia

/-! # Claim theorems -/

namespace CustomMedia

/-- C5: `recv()` fails with the stream-ended error immediately whenever the
track is not in the live state, leaving the state unchanged (hence
identically and idempotently on repeated calls, in particular after
`stop()`); upon dequeuing the end sentinel it transitions the track to
ended and fails with the same error; otherwise it returns the dequeued
frame — for player tracks and relay proxy tracks alike. -/
theorem recv_stream_ended_contract {α : Type} (st : TrackState α) (f : α)
    (rest : List (Option α)) :
    (st.ready ≠ ReadyState.live →
      playerTrackRecv st = some (RecvResult.mediaStreamError, st) ∧
      relayTrackRecv st = some (RecvResult.mediaStreamError, st)) ∧
    (playerTrackRecv ⟨ReadyState.live, none :: rest⟩ =
        some (RecvResult.mediaStreamError, ⟨ReadyState.ended, rest⟩) ∧
      relayTrackRecv ⟨ReadyState.live, none :: rest⟩ =
        some (RecvResult.mediaStreamError, ⟨ReadyState.ended, rest⟩)) ∧
    (playerTrackRecv ⟨ReadyState.live, some f :: rest⟩ =
        some (RecvResult.frame f, ⟨ReadyState.live, rest⟩) ∧
      relayTrackRecv ⟨ReadyState.live, some f :: rest⟩ =
        some (RecvResult.frame f, ⟨ReadyState.live, rest⟩)) ∧
    (playerTrackRecv (trackStop st) = some (RecvResult.mediaStreamError, trackStop st) ∧
      relayTrackRecv (trackStop st) = some (RecvResult.mediaStreamError, trackStop st)) := by
  refine ⟨fun h => ⟨?_, ?_⟩, ⟨?_, ?_⟩, ⟨?_, ?_⟩, ⟨?_, ?_⟩⟩ <;>
    simp [playerTrackRecv, relayTrackRecv, trackStop, *]

/-- Witness: the contract applied to a concrete stopped track. -/
theorem recv_stream_ended_contract_witness :
    ((⟨ReadyState.ended, []⟩ : TrackState Nat).ready ≠ ReadyState.live) ∧
    playerTrackRecv (⟨ReadyState.ended, []⟩ : TrackState Nat) =
      some (RecvResult.mediaStreamError, ⟨ReadyState.ended, []⟩) :=
  ⟨by decide,
   ((recv_stream_ended_contract (⟨ReadyState.ended, []⟩ : TrackState Nat) 0 []).1
      (by decide)).1⟩

/-- C2 (evaluation at the failing input): with `max_frame_to_decode = 5`
and the quit event never set, the worker handed a decoded video frame with
index 6 performs a single cap sleep and then emits the frame anyway,
because the cap check of line 143 is an `if` and not the `while` its
trailing comment records: decoding does not halt until the cap is raised
or a stop signal is observed. -/
theorem cap_if_emits_frame_anyway :
    player_worker (videoCfg 5) initWorker
        [DecodeResult.video 6 (some 100), DecodeResult.streamEnd] =
      [Emit.capSleep, Emit.videoFrame 0, Emit.videoSentinel] := by decide

end CustomMedia

namespace CustomMedia

lemma alookup_map_true (k : Nat) (l : List (Nat × Bool)) :
    alookup k (l.map (fun e => (e.1, true))) = (alookup k l).map (fun _ => true) := by
  induction l with
  | nil => rfl
  | cons e rest ih => by_cases he : e.1 = k <;> simp [alookup, he, ih]

lemma bhInvariant_add (t : Nat) (st : BlackholeState) (h : bhInvariant st) :
    bhInvariant (bhAddTrack t st) := by
  obtain ⟨hkeys, hsp, hiff⟩ := h
  by_cases hs : (alookup t st.tracks).isSome = true
  · have heq : bhAddTrack t st = st := by
      unfold bhAddTrack
      rw [if_pos hs]
    rw [heq]
    exact ⟨hkeys, hsp, hiff⟩
  · have hnone : alookup t st.tracks = none := Option.not_isSome_iff_eq_none.mp hs
    have hnot : t ∉ st.tracks.map Prod.fst := alookup_eq_none.mp hnone
    have heq : bhAddTrack t st = ⟨st.tracks ++ [(t, false)], st.spawned⟩ := by
      unfold bhAddTrack
      rw [if_neg hs]
    rw [heq]
    refine ⟨?_, hsp, ?_⟩
    · rw [List.map_append]
      refine List.Nodup.append hkeys (List.nodup_singleton t) ?_
      intro a ha hb
      have hat : a = t := by simpa using hb
      exact hnot (hat ▸ ha)
    · intro u
      constructor
      · intro hu
        exact alookup_append_left _ ((hiff u).mp hu)
      · intro hu
        cases huk : alookup u st.tracks with
        | some v =>
          have h2 := alookup_append_left [(t, false)] huk
          rw [h2] at hu
          have hv : v = true := by simpa using hu
          exact (hiff u).mpr (by rw [huk, hv])
        | none =>
          rw [alookup_append_right _ huk] at hu
          by_cases hut : t = u <;> simp [alookup, hut] at hu

lemma bhInvariant_start (st : BlackholeState) (h : bhInvariant st) :
    bhInvariant (bhStart st) := by
  obtain ⟨hkeys, hsp, hiff⟩ := h
  have hkeys2 : ((st.tracks.map (fun e => (e.1, true))).map Prod.fst).Nodup := by
    simpa [List.map_map, Function.comp] using hkeys
  have hnews : ∀ u, u ∈ (st.tracks.filter (fun e => !e.2)).map Prod.fst ↔
      alookup u st.tracks = some false := by
    intro u
    constructor
    · intro hu
      obtain ⟨e, he, hfst⟩ := List.mem_map.mp hu
      obtain ⟨hmem, hval⟩ := List.mem_filter.mp he
      have : e = (u, false) := by
        obtain ⟨e1, e2⟩ := e
        simp at hfst hval
        simp [hfst, hval]
      exact alookup_of_mem_nodup hkeys (this ▸ hmem)
    · intro hu
      exact List.mem_map.mpr ⟨(u, false), List.mem_filter.mpr ⟨mem_of_alookup hu, rfl⟩, rfl⟩
  have hnewsNodup : ((st.tracks.filter (fun e => !e.2)).map Prod.fst).Nodup :=
    ((List.filter_sublist st.tracks).map Prod.fst).nodup hkeys
  refine ⟨hkeys2, ?_, ?_⟩
  · refine List.Nodup.append hsp hnewsNodup ?_
    intro a ha hb
    have h1 : alookup a st.tracks = some true := (hiff a).mp ha
    have h2 : alookup a st.tracks = some false := (hnews a).mp hb
    simp [h1] at h2
  · intro u
    have hsp2 : (bhStart st).spawned =
        st.spawned ++ (st.tracks.filter (fun e => !e.2)).map Prod.fst := rfl
    have htr2 : (bhStart st).tracks = st.tracks.map (fun e => (e.1, true)) := rfl
    rw [hsp2, htr2, alookup_map_true, List.mem_append]
    cases hu : alookup u st.tracks with
    | none =>
      constructor
      · rintro (h1 | h2)
        · have := (hiff u).mp h1
          rw [hu] at this
          exact absurd this (by simp)
        · have := (hnews u).mp h2
          rw [hu] at this
          exact absurd this (by simp)
      · intro h
        simp at h
    | some v =>
      constructor
      · intro _
        rfl
      · intro _
        cases v with
        | true => exact Or.inl ((hiff u).mpr hu)
        | false => exact Or.inr ((hnews u).mpr hu)

lemma bhRun_invariant (ops : List BHOp) : bhInvariant (bhRun ops) := by
  have hstep : ∀ (l : List BHOp) (st : BlackholeState), bhInvariant st →
      bhInvariant (l.foldl applyBHOp st) := by
    intro l
    induction l with
    | nil => intro st h; exact h
    | cons op rest ih =>
      intro st h
      cases op with
      | addOp t => exact ih _ (bhInvariant_add t st h)
      | startOp => exact ih _ (bhInvariant_start st h)
  exact hstep ops bhInit ⟨by simp [bhInit], by simp [bhInit], by
    intro t
    simp [bhInit, alookup]⟩

/-- C10: for the Blackhole sink, `addTrack` is idempotent on the track
dictionary, and across any sequence of `addTrack` / `start` calls on a
fresh sink, at most one consuming task is ever created per track (the
ghost spawn log of the model records every task creation). -/
theorem blackhole_single_task (st : BlackholeState) (ops : List BHOp) (t : Nat) :
    bhAddTrack t (bhAddTrack t st) = bhAddTrack t st ∧
    (bhRun ops).spawned.count t ≤ 1 := by
  constructor
  · by_cases hs : (alookup t st.tracks).isSome = true
    · have heq : bhAddTrack t st = st := by
        unfold bhAddTrack
        rw [if_pos hs]
      rw [heq]
      exact heq
    · have hnone : alookup t st.tracks = none := Option.not_isSome_iff_eq_none.mp hs
      have heq : bhAddTrack t st = ⟨st.tracks ++ [(t, false)], st.spawned⟩ := by
        unfold bhAddTrack
        rw [if_neg hs]
      have happ : alookup t (st.tracks ++ [(t, false)]) = some false :=
        (alookup_append_right _ hnone).trans (by simp [alookup])
      rw [heq]
      unfold bhAddTrack
      rw [if_pos (by simp [happ])]
  · exact List.nodup_iff_count_le_one.mp (bhRun_invariant ops).2.1 t

end CustomMedia


namespace CustomMedia

lemma playerInvariant_mk (s : Finset Nat) (n : Nat) (c : Bool)
    (h1 : n ≤ 1) (h2 : n = 0 ↔ s = ∅) : playerInvariant ⟨s, n, c⟩ :=
  ⟨h1, h2⟩

lemma playerInvariant_start (tid : Nat) (st : MediaPlayerState)
    (h : playerInvariant st) : playerInvariant (mediaPlayerStart tid st).1 := by
  obtain ⟨h1, h2⟩ := h
  simp only [mediaPlayerStart]
  by_cases ht : st.threads = 0
  · rw [if_pos ht]
    dsimp only
    exact playerInvariant_mk _ _ _ (by omega)
      ⟨fun hc => absurd hc (by omega),
       fun hc => absurd hc (Finset.insert_ne_empty _ _)⟩
  · rw [if_neg ht]
    dsimp only
    exact playerInvariant_mk _ _ _ h1
      ⟨fun hc => absurd hc ht,
       fun hc => absurd hc (Finset.insert_ne_empty _ _)⟩

lemma playerInvariant_stop (tid : Nat) (st : MediaPlayerState)
    (h : playerInvariant st) : playerInvariant (mediaPlayerStop tid st).1 := by
  obtain ⟨h1, h2⟩ := h
  simp only [mediaPlayerStop]
  by_cases hc : st.started.erase tid = ∅ ∧ st.threads ≠ 0
  · rw [if_pos hc]
    dsimp only
    refine playerInvariant_mk _ _ _ (by omega) ⟨fun _ => hc.1, fun _ => ?_⟩
    have := hc.2
    omega
  · rw [if_neg hc]
    dsimp only
    refine playerInvariant_mk _ _ _ h1 ⟨?_, ?_⟩
    · intro hz
      rw [h2.mp hz]
      simp
    · intro he
      by_contra hnz
      exact hc ⟨he, hnz⟩

lemma playerRun_invariant (ops : List PlayerOp) : playerInvariant (playerRun ops) := by
  have hstep : ∀ (l : List PlayerOp) (st : MediaPlayerState), playerInvariant st →
      playerInvariant (l.foldl applyPlayerOp st) := by
    intro l
    induction l with
    | nil => intro st h; exact h
    | cons op rest ih =>
      intro st h
      cases op with
      | startOp t => exact ih _ (playerInvariant_start t st h)
      | stopOp t => exact ih _ (playerInvariant_stop t st h)
  exact hstep ops playerInit ⟨by simp [playerInit], by simp [playerInit]⟩

/-- C6: in every reachable player state at most one decode thread exists,
and one is alive exactly when at least one of the player's tracks has been
started; and when the last started track stops while the thread runs and
the container is open, `_stop` performs set-quit, join-thread,
close-container, in exactly that order. -/
theorem player_thread_lifecycle (ops : List PlayerOp) (tid : Nat)
    (st : MediaPlayerState) (hlast : st.started.erase tid = ∅)
    (hthr : st.threads ≠ 0) (hcont : st.containerOpen = true) :
    ((playerRun ops).threads ≤ 1 ∧
      ((playerRun ops).threads = 0 ↔ (playerRun ops).started = ∅)) ∧
    (mediaPlayerStop tid st).2 =
      [PlayerAction.setQuit, PlayerAction.joinThread, PlayerAction.closeContainer] := by
  refine ⟨⟨(playerRun_invariant ops).1, (playerRun_invariant ops).2⟩, ?_⟩
  simp only [mediaPlayerStop]
  rw [if_pos ⟨hlast, hthr⟩, if_pos ⟨hlast, hcont⟩]
  rfl

/-- Witness: stopping the only started track of a player with a live
thread and an open container. -/
theorem player_thread_lifecycle_witness :
    (({0} : Finset Nat).erase 0 = ∅ ∧ (1 : Nat) ≠ 0 ∧ true = true) ∧
    (mediaPlayerStop 0 ⟨{0}, 1, true⟩).2 =
      [PlayerAction.setQuit, PlayerAction.joinThread, PlayerAction.closeContainer] :=
  ⟨⟨by decide, by decide, rfl⟩,
   (player_thread_lifecycle [] 0 ⟨{0}, 1, true⟩ (by decide) (by decide) rfl).2⟩

end CustomMedia

namespace CustomMedia

lemma alookup_append_fresh {β : Type} {k : Nat} {l : List (Nat × β)} (v : β)
    (h : ∀ e ∈ l, e.1 ≠ k) : alookup k (l ++ [(k, v)]) = some v := by
  have hnone : alookup k l = none := alookup_eq_none.mpr (by
    intro hm
    obtain ⟨e, he, hfst⟩ := List.mem_map.mp hm
    exact h e he hfst)
  rw [alookup_append_right _ hnone]
  simp [alookup]

lemma relayInvariant_subscribe (src : Nat) (st : MediaRelayState)
    (h : relayInvariant st) : relayInvariant (relaySubscribe src st).2 := by
  obtain ⟨h1, h2⟩ := h
  refine ⟨h1, ?_⟩
  intro e he
  rcases List.mem_append.mp he with h3 | h3
  · exact Nat.lt_succ_of_lt (h2 e h3)
  · have he2 : e = (st.nextPid, some src) := by simpa using h3
    rw [he2]
    exact Nat.lt_succ_self _

lemma relayInvariant_start (pid : Nat) (st : MediaRelayState)
    (h : relayInvariant st) : relayInvariant (relayStartProxy pid st) := by
  obtain ⟨h1, h2⟩ := h
  unfold relayStartProxy
  cases hl : alookup pid st.proxySrc with
  | none => exact ⟨h1, h2⟩
  | some osrc =>
    cases osrc with
    | none => exact ⟨h1, h2⟩
    | some src =>
      dsimp only
      by_cases hp : (alookup src st.proxies).isSome = true
      · rw [if_pos hp]
        refine ⟨?_, h2⟩
        by_cases ht : src ∈ st.tasks
        · rw [if_pos ht]
          exact h1
        · rw [if_neg ht]
          exact List.nodup_cons.mpr ⟨ht, h1⟩
      · rw [if_neg hp]
        exact ⟨h1, h2⟩

lemma relayInvariant_stop (pid : Nat) (st : MediaRelayState)
    (h : relayInvariant st) : relayInvariant (relayStopProxy pid st) := by
  obtain ⟨h1, h2⟩ := h
  unfold relayStopProxy
  cases hl : alookup pid st.proxySrc with
  | none => exact ⟨h1, h2⟩
  | some osrc =>
    cases osrc with
    | none => exact ⟨h1, h2⟩
    | some src =>
      refine ⟨h1, ?_⟩
      intro e he
      obtain ⟨e0, he0, heq⟩ := List.mem_map.mp he
      have hfst : e.1 = e0.1 := by
        by_cases hp : e0.1 = pid
        · rw [← heq, if_pos hp]
        · rw [← heq, if_neg hp]
      rw [hfst]
      exact h2 e0 he0

lemma relayInvariant_finish (src : Nat) (st : MediaRelayState)
    (h : relayInvariant st) : relayInvariant (relayFinishTrack src st) :=
  ⟨h.1.erase src, h.2⟩

lemma relayRun_invariant (ops : List RelayOp) : relayInvariant (relayRun ops) := by
  have hstep : ∀ (l : List RelayOp) (st : MediaRelayState), relayInvariant st →
      relayInvariant (l.foldl applyRelayOp st) := by
    intro l
    induction l with
    | nil => intro st h; exact h
    | cons op rest ih =>
      intro st h
      cases op with
      | subscribeOp s => exact ih _ (relayInvariant_subscribe s st h)
      | startOp p => exact ih _ (relayInvariant_start p st h)
      | stopOp p => exact ih _ (relayInvariant_stop p st h)
      | finishOp s => exact ih _ (relayInvariant_finish s st h)
  exact hstep ops relayInit ⟨List.nodup_nil, by intro e he; simp [relayInit] at he⟩

/-- C7: in every reachable relay state each source has at most one fan-out
task; `subscribe` leaves the task table untouched (it starts no reading),
registers the source key if it was unknown, and returns a fresh proxy
bound to exactly that source. -/
theorem relay_single_fanout (ops : List RelayOp) (src : Nat) :
    (relayRun ops).tasks.count src ≤ 1 ∧
    (relaySubscribe src (relayRun ops)).2.tasks = (relayRun ops).tasks ∧
    (alookup src (relaySubscribe src (relayRun ops)).2.proxies).isSome = true ∧
    alookup (relayRun ops).nextPid (relaySubscribe src (relayRun ops)).2.proxySrc
      = some (some src) := by
  obtain ⟨h1, h2⟩ := relayRun_invariant ops
  refine ⟨List.nodup_iff_count_le_one.mp h1 src, rfl, ?_, ?_⟩
  · show (alookup src (if (alookup src (relayRun ops).proxies).isSome then
      (relayRun ops).proxies else (relayRun ops).proxies ++ [(src, [])])).isSome = true
    by_cases hp : (alookup src (relayRun ops).proxies).isSome = true
    · rw [if_pos hp]
      exact hp
    · rw [if_neg hp]
      have hnone : alookup src (relayRun ops).proxies = none :=
        Option.not_isSome_iff_eq_none.mp hp
      rw [alookup_append_right _ hnone]
      simp [alookup]
  · exact alookup_append_fresh _ (fun e he => Nat.ne_of_lt (h2 e he))

end CustomMedia

namespace CustomMedia

lemma proxyObs_subscribe {α : Type} (p r : Nat) (reg : List Nat)
    (rest : List (RelayEvent α)) :
    proxyObs p reg (RelayEvent.subscribeEvt r :: rest) = proxyObs p reg rest := rfl

lemma proxyObs_start {α : Type} (p r : Nat) (reg : List Nat)
    (rest : List (RelayEvent α)) :
    proxyObs p reg (RelayEvent.startEvt r :: rest) =
      proxyObs p (regInsert r reg) rest := rfl

lemma proxyObs_stop {α : Type} (p r : Nat) (reg : List Nat)
    (rest : List (RelayEvent α)) :
    proxyObs p reg (RelayEvent.stopEvt r :: rest) =
      proxyObs p (reg.erase r) rest := rfl

lemma proxyObs_deliver {α : Type} (p : Nat) (reg : List Nat) (f : α)
    (rest : List (RelayEvent α)) :
    proxyObs p reg (RelayEvent.deliverEvt f :: rest) =
      (if p ∈ reg then [some f] else []) ++ proxyObs p reg rest := rfl

lemma proxyObs_eos {α : Type} (p : Nat) (reg : List Nat)
    (rest : List (RelayEvent α)) :
    proxyObs p reg (RelayEvent.eosEvt :: rest) =
      if p ∈ reg then [none] else [] := rfl

lemma broadcastScript_deliver {α : Type} (f : α) (rest : List (RelayEvent α)) :
    broadcastScript (RelayEvent.deliverEvt f :: rest) =
      some f :: broadcastScript rest := rfl

lemma broadcastScript_eos {α : Type} (rest : List (RelayEvent α)) :
    broadcastScript (RelayEvent.eosEvt :: rest) = [none] := rfl

lemma broadcastScript_subscribe {α : Type} (r : Nat) (rest : List (RelayEvent α)) :
    broadcastScript (RelayEvent.subscribeEvt r :: rest) = broadcastScript rest := rfl

lemma broadcastScript_start {α : Type} (r : Nat) (rest : List (RelayEvent α)) :
    broadcastScript (RelayEvent.startEvt r :: rest) = broadcastScript rest := rfl

lemma broadcastScript_stop {α : Type} (r : Nat) (rest : List (RelayEvent α)) :
    broadcastScript (RelayEvent.stopEvt r :: rest) = broadcastScript rest := rfl

lemma mem_regInsert {p q : Nat} (reg : List Nat) :
    q ∈ regInsert p reg ↔ q = p ∨ q ∈ reg := by
  unfold regInsert
  by_cases hp : p ∈ reg
  · rw [if_pos hp]
    constructor
    · exact Or.inr
    · rintro (h | h)
      · rw [h]
        exact hp
      · exact h
  · rw [if_neg hp]
    exact List.mem_cons

lemma nodup_regInsert (p : Nat) {reg : List Nat} (h : reg.Nodup) :
    (regInsert p reg).Nodup := by
  unfold regInsert
  by_cases hp : p ∈ reg
  · rw [if_pos hp]
    exact h
  · rw [if_neg hp]
    exact List.nodup_cons.mpr ⟨hp, h⟩

lemma mem_regStep_of_mem {α : Type} {p : Nat} {reg : List Nat} (e : RelayEvent α)
    (hmem : p ∈ reg) (hne : e ≠ RelayEvent.stopEvt p) : p ∈ regStep reg e := by
  cases e with
  | subscribeEvt r => exact hmem
  | startEvt r => exact (mem_regInsert reg).mpr (Or.inr hmem)
  | stopEvt r =>
    have hr : p ≠ r := fun h => hne (by rw [h])
    exact (List.mem_erase_of_ne hr).mpr hmem
  | deliverEvt f => exact hmem
  | eosEvt => exact hmem

lemma proxyObs_of_registered {α : Type} (p : Nat) :
    ∀ (events : List (RelayEvent α)) (reg : List Nat), p ∈ reg →
      RelayEvent.stopEvt p ∉ events →
      proxyObs p reg events = broadcastScript events := by
  intro events
  induction events with
  | nil => intro reg _ _; rfl
  | cons e rest ih =>
    intro reg hmem hstop
    have hne : e ≠ RelayEvent.stopEvt p :=
      fun h => hstop (h ▸ List.mem_cons_self e rest)
    have hstop2 : RelayEvent.stopEvt p ∉ rest :=
      fun h => hstop (List.mem_cons_of_mem e h)
    cases e with
    | deliverEvt f =>
      rw [proxyObs_deliver, broadcastScript_deliver, if_pos hmem,
        ih reg hmem hstop2]
      rfl
    | eosEvt =>
      rw [proxyObs_eos, broadcastScript_eos, if_pos hmem]
    | subscribeEvt r =>
      rw [proxyObs_subscribe, broadcastScript_subscribe]
      exact ih reg hmem hstop2
    | startEvt r =>
      rw [proxyObs_start, broadcastScript_start]
      exact ih _ (mem_regStep_of_mem (RelayEvent.startEvt r) hmem hne) hstop2
    | stopEvt r =>
      rw [proxyObs_stop, broadcastScript_stop]
      exact ih _ (mem_regStep_of_mem (RelayEvent.stopEvt r) hmem hne) hstop2

lemma broadcastScript_of_filter {α : Type} :
    ∀ (events : List (RelayEvent α)) (frames : List α),
      events.filter isBroadcast =
        frames.map RelayEvent.deliverEvt ++ [RelayEvent.eosEvt] →
      broadcastScript events = frames.map some ++ [none] := by
  intro events
  induction events with
  | nil =>
    intro frames h
    exfalso
    cases frames <;> simp at h
  | cons e rest ih =>
    intro frames h
    cases e with
    | deliverEvt f =>
      rw [List.filter_cons_of_pos (by rfl)] at h
      cases frames with
      | nil => simp at h
      | cons f0 fr =>
        simp only [List.map_cons, List.cons_append, List.cons.injEq,
          RelayEvent.deliverEvt.injEq] at h
        rw [broadcastScript_deliver, ih fr h.2, h.1]
        rfl
    | eosEvt =>
      rw [List.filter_cons_of_pos (by rfl)] at h
      cases frames with
      | nil => rw [broadcastScript_eos]; rfl
      | cons f0 fr => simp at h
    | subscribeEvt r =>
      rw [List.filter_cons_of_neg (by simp [isBroadcast])] at h
      rw [broadcastScript_subscribe]
      exact ih frames h
    | startEvt r =>
      rw [List.filter_cons_of_neg (by simp [isBroadcast])] at h
      rw [broadcastScript_start]
      exact ih frames h
    | stopEvt r =>
      rw [List.filter_cons_of_neg (by simp [isBroadcast])] at h
      rw [broadcastScript_stop]
      exact ih frames h

lemma proxyObs_append_setup {α : Type} (p : Nat) :
    ∀ (pre post : List (RelayEvent α)) (reg : List Nat),
      (∀ e ∈ pre, isBroadcast e = false) →
      proxyObs p reg (pre ++ post) = proxyObs p (pre.foldl regStep reg) post := by
  intro pre
  induction pre with
  | nil => intro post reg _; rfl
  | cons e rest ih =>
    intro post reg hpre
    have he : isBroadcast e = false := hpre e (List.mem_cons_self e rest)
    have hrest : ∀ e2 ∈ rest, isBroadcast e2 = false :=
      fun e2 h2 => hpre e2 (List.mem_cons_of_mem e h2)
    cases e with
    | deliverEvt f => simp [isBroadcast] at he
    | eosEvt => simp [isBroadcast] at he
    | subscribeEvt r =>
      rw [List.cons_append, proxyObs_subscribe, ih post reg hrest]
      rfl
    | startEvt r =>
      rw [List.cons_append, proxyObs_start, ih post (regInsert r reg) hrest]
      rfl
    | stopEvt r =>
      rw [List.cons_append, proxyObs_stop, ih post (reg.erase r) hrest]
      rfl

lemma mem_foldl_regStep {α : Type} (p : Nat) :
    ∀ (pre : List (RelayEvent α)) (reg : List Nat), p ∈ reg →
      RelayEvent.stopEvt p ∉ pre → p ∈ pre.foldl regStep reg := by
  intro pre
  induction pre with
  | nil => intro reg h _; exact h
  | cons e rest ih =>
    intro reg hmem hstop
    rw [List.foldl_cons]
    exact ih _
      (mem_regStep_of_mem e hmem (fun h => hstop (h ▸ List.mem_cons_self e rest)))
      (fun h => hstop (List.mem_cons_of_mem e h))

lemma mem_foldl_regStep_of_start {α : Type} (p : Nat) :
    ∀ (pre : List (RelayEvent α)) (reg : List Nat),
      RelayEvent.startEvt p ∈ pre → RelayEvent.stopEvt p ∉ pre →
      p ∈ pre.foldl regStep reg := by
  intro pre
  induction pre with
  | nil => intro reg h _; simp at h
  | cons e rest ih =>
    intro reg hstart hstop
    rw [List.foldl_cons]
    have hstop2 : RelayEvent.stopEvt p ∉ rest :=
      fun h => hstop (List.mem_cons_of_mem e h)
    by_cases he : e = RelayEvent.startEvt p
    · rw [he]
      exact mem_foldl_regStep p rest _ ((mem_regInsert reg).mpr (Or.inl rfl)) hstop2
    · have hmem : RelayEvent.startEvt p ∈ rest := by
        rcases List.mem_cons.mp hstart with h | h
        · exact absurd h.symm he
        · exact h
      exact ih _ hmem hstop2

lemma drainOutcomes_script {α : Type} (frames : List α) :
    drainOutcomes (frames.map some ++ [none]) =
      frames.map RecvResult.frame ++ [RecvResult.mediaStreamError] := by
  induction frames with
  | nil => rfl
  | cons f fr ih =>
    simp only [List.map_cons, List.cons_append, drainOutcomes]
    exact congrArg _ ih

/-- C1 (amended): over one source emitting frames `f1…fk` followed by
end-of-stream, every proxy that is registered by its first `receive()`
(the `_start` event) before the first broadcast event and is never stopped
observes via `receive()` exactly `f1…fk` in emission order followed by the
stream-ended condition — no reordering, duplication or fabrication. -/
theorem relay_broadcast_exact {α : Type} (frames : List α) (p : Nat)
    (pre post : List (RelayEvent α))
    (hpre : ∀ e ∈ pre, isBroadcast e = false)
    (hstart : RelayEvent.startEvt p ∈ pre)
    (hstop1 : RelayEvent.stopEvt p ∉ pre)
    (hstop2 : RelayEvent.stopEvt p ∉ post)
    (hsrc : post.filter isBroadcast =
      frames.map RelayEvent.deliverEvt ++ [RelayEvent.eosEvt]) :
    drainOutcomes (proxyObs p [] (pre ++ post)) =
      frames.map RecvResult.frame ++ [RecvResult.mediaStreamError] := by
  rw [proxyObs_append_setup p pre post [] hpre,
    proxyObs_of_registered p post _
      (mem_foldl_regStep_of_start p pre [] hstart hstop1) hstop2,
    broadcastScript_of_filter post frames hsrc]
  exact drainOutcomes_script frames

/-- Witness: one proxy registered before the broadcast of frames 10, 20. -/
theorem relay_broadcast_exact_witness :
    drainOutcomes (proxyObs 1 []
        ([RelayEvent.subscribeEvt 1, RelayEvent.startEvt 1] ++
          [RelayEvent.deliverEvt (10 : Nat), RelayEvent.deliverEvt 20,
           RelayEvent.eosEvt])) =
      [RecvResult.frame 10, RecvResult.frame 20, RecvResult.mediaStreamError] :=
  relay_broadcast_exact [10, 20] 1 _ _ (by decide) (by decide) (by decide)
    (by decide) (by decide)

/-- C1 is false as stated: in the trace below both proxies subscribe
before any broadcast event, proxy 2 is never stopped, and the source emits
frames 10 and 20 followed by end-of-stream; yet proxy 2, whose first
`receive()` registers it only after frame 10 was already broadcast,
observes frame 20 and the stream end but never frame 10 — subscribing
before the broadcast begins does not suffice for receiving every frame. -/
theorem relay_subscribe_insufficient :
    (∀ e ∈ List.take 3 [RelayEvent.subscribeEvt 1, RelayEvent.subscribeEvt 2,
        RelayEvent.startEvt 1, RelayEvent.deliverEvt (10 : Nat),
        RelayEvent.startEvt 2, RelayEvent.deliverEvt 20, RelayEvent.eosEvt],
      isBroadcast e = false) ∧
    RelayEvent.subscribeEvt 2 ∈
      List.take 3 [RelayEvent.subscribeEvt 1, RelayEvent.subscribeEvt 2,
        RelayEvent.startEvt 1, RelayEvent.deliverEvt (10 : Nat),
        RelayEvent.startEvt 2, RelayEvent.deliverEvt 20, RelayEvent.eosEvt] ∧
    RelayEvent.stopEvt 2 ∉
      [RelayEvent.subscribeEvt 1, RelayEvent.subscribeEvt 2,
        RelayEvent.startEvt 1, RelayEvent.deliverEvt (10 : Nat),
        RelayEvent.startEvt 2, RelayEvent.deliverEvt 20, RelayEvent.eosEvt] ∧
    List.filter isBroadcast
      [RelayEvent.subscribeEvt 1, RelayEvent.subscribeEvt 2,
        RelayEvent.startEvt 1, RelayEvent.deliverEvt (10 : Nat),
        RelayEvent.startEvt 2, RelayEvent.deliverEvt 20, RelayEvent.eosEvt] =
      List.map RelayEvent.deliverEvt [10, 20] ++ [RelayEvent.eosEvt] ∧
    drainOutcomes (proxyObs 2 []
      [RelayEvent.subscribeEvt 1, RelayEvent.subscribeEvt 2,
        RelayEvent.startEvt 1, RelayEvent.deliverEvt (10 : Nat),
        RelayEvent.startEvt 2, RelayEvent.deliverEvt 20, RelayEvent.eosEvt]) ≠
      List.map RecvResult.frame [10, 20] ++ [RecvResult.mediaStreamError] :=
  ⟨by decide, by decide, by decide, by decide, by decide⟩

end CustomMedia

namespace CustomMedia

lemma proxyObs_erase_stop {α : Type} [DecidableEq α] (p q : Nat) (hpq : q ≠ p) :
    ∀ (events : List (RelayEvent α)) (reg reg2 : List Nat),
      reg.Nodup → reg2.Nodup → (q ∈ reg ↔ q ∈ reg2) →
      proxyObs q reg2 (events.filter (fun e => decide (e ≠ RelayEvent.stopEvt p))) =
        proxyObs q reg events := by
  intro events
  induction events with
  | nil => intro reg reg2 _ _ _; rfl
  | cons e rest ih =>
    intro reg reg2 hnd hnd2 hiff
    cases e with
    | subscribeEvt r =>
      rw [List.filter_cons_of_pos (by simp), proxyObs_subscribe, proxyObs_subscribe]
      exact ih reg reg2 hnd hnd2 hiff
    | startEvt r =>
      rw [List.filter_cons_of_pos (by simp), proxyObs_start, proxyObs_start]
      refine ih _ _ (nodup_regInsert r hnd) (nodup_regInsert r hnd2) ?_
      rw [mem_regInsert, mem_regInsert]
      exact or_congr Iff.rfl hiff
    | stopEvt r =>
      by_cases hr : r = p
      · rw [hr, List.filter_cons_of_neg (by simp), proxyObs_stop]
        refine ih _ _ (hnd.erase p) hnd2 ?_
        rw [hnd.mem_erase_iff]
        constructor
        · intro h
          exact hiff.mp h.2
        · intro h
          exact ⟨hpq, hiff.mpr h⟩
      · rw [List.filter_cons_of_pos (by simp [hr]), proxyObs_stop, proxyObs_stop]
        refine ih _ _ (hnd.erase r) (hnd2.erase r) ?_
        rw [hnd.mem_erase_iff, hnd2.mem_erase_iff]
        exact and_congr Iff.rfl hiff
    | deliverEvt f =>
      rw [List.filter_cons_of_pos (by simp), proxyObs_deliver, proxyObs_deliver,
        ih reg reg2 hnd hnd2 hiff]
      by_cases hq : q ∈ reg
      · rw [if_pos (hiff.mp hq), if_pos hq]
      · rw [if_neg (fun h2 => hq (hiff.mpr h2)), if_neg hq]
    | eosEvt =>
      rw [List.filter_cons_of_pos (by simp), proxyObs_eos, proxyObs_eos]
      by_cases hq : q ∈ reg
      · rw [if_pos (hiff.mp hq), if_pos hq]
      · rw [if_neg (fun h2 => hq (hiff.mpr h2)), if_neg hq]

/-- C9: stopping one relay proxy leaves the fan-out task table untouched
(the shared task keeps running), and for every other proxy the queue
contents it accumulates over any event-loop trace are exactly what they
would have been on the same trace with the stop removed — the stop never
alters another proxy's observed sequence. -/
theorem relay_stop_isolation {α : Type} [DecidableEq α] (p q : Nat) (st : MediaRelayState)
    (events : List (RelayEvent α)) (hpq : q ≠ p) :
    (relayStopProxy p st).tasks = st.tasks ∧
    proxyObs q [] (events.filter (fun e => decide (e ≠ RelayEvent.stopEvt p))) =
      proxyObs q [] events := by
  constructor
  · unfold relayStopProxy
    cases hl : alookup p st.proxySrc with
    | none => rfl
    | some osrc =>
      cases osrc with
      | none => rfl
      | some src => rfl
  · exact proxyObs_erase_stop p q hpq events [] [] List.nodup_nil List.nodup_nil
      Iff.rfl

/-- Witness: stopping proxy 1 mid-broadcast does not change what proxy 2
observes. -/
theorem relay_stop_isolation_witness :
    (relayStopProxy 1 relayInit).tasks = relayInit.tasks ∧
    proxyObs 2 []
        (([RelayEvent.startEvt 2, RelayEvent.deliverEvt (5 : Nat),
           RelayEvent.stopEvt 1, RelayEvent.deliverEvt 7,
           RelayEvent.eosEvt]).filter
          (fun e => decide (e ≠ RelayEvent.stopEvt 1))) =
      proxyObs 2 []
        [RelayEvent.startEvt 2, RelayEvent.deliverEvt (5 : Nat),
         RelayEvent.stopEvt 1, RelayEvent.deliverEvt 7, RelayEvent.eosEvt] :=
  relay_stop_isolation 1 2 relayInit _ (by decide)

end CustomMedia

namespace CustomMedia

lemma player_worker_nil (cfg : WorkerCfg) (st : WorkerState) :
    player_worker cfg st [] = [] := rfl

lemma player_worker_eagain (cfg : WorkerCfg) (hq : cfg.quitSet = false)
    (st : WorkerState) (rest : List DecodeResult) :
    player_worker cfg st (DecodeResult.eagain :: rest) =
      Emit.sleepRetry :: player_worker cfg st rest := by
  show (if cfg.quitSet = true then [] else
    Emit.sleepRetry :: player_worker cfg st rest) = _
  rw [if_neg (by simp [hq])]

lemma player_worker_streamEnd (cfg : WorkerCfg) (hq : cfg.quitSet = false)
    (st : WorkerState) (rest : List DecodeResult) :
    player_worker cfg st (DecodeResult.streamEnd :: rest) = sentinels cfg := by
  show (if cfg.quitSet = true then [] else sentinels cfg) = _
  rw [if_neg (by simp [hq])]

lemma player_worker_audio (cfg : WorkerCfg) (hq : cfg.quitSet = false)
    (ha : cfg.hasAudio = true) (st : WorkerState) (op : Option Int) (s : Nat)
    (rest : List DecodeResult) :
    player_worker cfg st (DecodeResult.audio op s :: rest) =
      (stepAudio st.audio s).2 ++
        player_worker cfg ⟨(stepAudio st.audio s).1, st.videoFirstPts⟩ rest := by
  show (if cfg.quitSet = true then [] else
    if cfg.hasAudio = true then
      (stepAudio st.audio s).2 ++
        player_worker cfg { st with audio := (stepAudio st.audio s).1 } rest
    else player_worker cfg st rest) = _
  rw [if_neg (by simp [hq]), if_pos ha]

lemma player_worker_audio_skip (cfg : WorkerCfg) (hq : cfg.quitSet = false)
    (ha : cfg.hasAudio = false) (st : WorkerState) (op : Option Int) (s : Nat)
    (rest : List DecodeResult) :
    player_worker cfg st (DecodeResult.audio op s :: rest) =
      player_worker cfg st rest := by
  show (if cfg.quitSet = true then [] else
    if cfg.hasAudio = true then
      (stepAudio st.audio s).2 ++
        player_worker cfg { st with audio := (stepAudio st.audio s).1 } rest
    else player_worker cfg st rest) = _
  rw [if_neg (by simp [hq]), if_neg (by simp [ha])]

lemma stepVideo_none_pts (cfg : WorkerCfg) (hq : cfg.quitSet = false)
    (fp : Option Int) (index : Nat) :
    stepVideo cfg fp index none =
      some (fp, capEmitsOf cfg index ++ [Emit.warnNoPts]) := by
  unfold stepVideo
  rw [if_neg (by simp [hq])]

lemma stepVideo_some_pts (cfg : WorkerCfg) (hq : cfg.quitSet = false)
    (fp : Option Int) (index : Nat) (p : Int) :
    stepVideo cfg fp index (some p) =
      some (some (fp.getD p),
        capEmitsOf cfg index ++ [Emit.videoFrame (p - fp.getD p)]) := by
  unfold stepVideo
  rw [if_neg (by simp [hq])]

lemma player_worker_video_none (cfg : WorkerCfg) (hq : cfg.quitSet = false)
    (hv : cfg.hasVideo = true) (st : WorkerState) (index : Nat)
    (rest : List DecodeResult) :
    player_worker cfg st (DecodeResult.video index none :: rest) =
      (capEmitsOf cfg index ++ [Emit.warnNoPts]) ++ player_worker cfg st rest := by
  show (if cfg.quitSet = true then [] else
    if cfg.hasVideo = true then
      match stepVideo cfg st.videoFirstPts index none with
      | none => []
      | some (fp, es) => es ++ player_worker cfg { st with videoFirstPts := fp } rest
    else player_worker cfg st rest) = _
  rw [if_neg (by simp [hq]), if_pos hv, stepVideo_none_pts cfg hq]

lemma player_worker_video_some (cfg : WorkerCfg) (hq : cfg.quitSet = false)
    (hv : cfg.hasVideo = true) (st : WorkerState) (index : Nat) (p : Int)
    (rest : List DecodeResult) :
    player_worker cfg st (DecodeResult.video index (some p) :: rest) =
      (capEmitsOf cfg index ++ [Emit.videoFrame (p - st.videoFirstPts.getD p)]) ++
        player_worker cfg ⟨st.audio, some (st.videoFirstPts.getD p)⟩ rest := by
  show (if cfg.quitSet = true then [] else
    if cfg.hasVideo = true then
      match stepVideo cfg st.videoFirstPts index (some p) with
      | none => []
      | some (fp, es) => es ++ player_worker cfg { st with videoFirstPts := fp } rest
    else player_worker cfg st rest) = _
  rw [if_neg (by simp [hq]), if_pos hv, stepVideo_some_pts cfg hq]

lemma player_worker_video_skip (cfg : WorkerCfg) (hq : cfg.quitSet = false)
    (hv : cfg.hasVideo = false) (st : WorkerState) (index : Nat)
    (pts : Option Int) (rest : List DecodeResult) :
    player_worker cfg st (DecodeResult.video index pts :: rest) =
      player_worker cfg st rest := by
  show (if cfg.quitSet = true then [] else
    if cfg.hasVideo = true then
      match stepVideo cfg st.videoFirstPts index pts with
      | none => []
      | some (fp, es) => es ++ player_worker cfg { st with videoFirstPts := fp } rest
    else player_worker cfg st rest) = _
  rw [if_neg (by simp [hq]), if_neg (by simp [hv])]

end CustomMedia

namespace CustomMedia

lemma stepAudio_no_sentinel (a : AudioState) (s : Nat) :
    Emit.audioSentinel ∉ (stepAudio a s).2 ∧ Emit.videoSentinel ∉ (stepAudio a s).2 := by
  constructor <;>
  · intro h
    simp only [stepAudio, List.mem_map] at h
    obtain ⟨i, _, hE⟩ := h
    cases hE

lemma capEmitsOf_no_sentinel (cfg : WorkerCfg) (index : Nat) :
    Emit.audioSentinel ∉ capEmitsOf cfg index ∧
    Emit.videoSentinel ∉ capEmitsOf cfg index ∧
    (capEmitsOf cfg index).filterMap videoPtsOf = [] ∧
    (capEmitsOf cfg index).count Emit.warnNoPts = 0 := by
  unfold capEmitsOf
  split <;> refine ⟨by decide, by decide, by decide, by decide⟩

lemma worker_sentinel_at_end (cfg : WorkerCfg) (hq : cfg.quitSet = false) :
    ∀ (pre : List DecodeResult) (st : WorkerState) (post : List DecodeResult),
      DecodeResult.streamEnd ∉ pre →
      player_worker cfg st (pre ++ DecodeResult.streamEnd :: post) =
        player_worker cfg st pre ++ sentinels cfg := by
  intro pre
  induction pre with
  | nil =>
    intro st post _
    rw [List.nil_append, player_worker_streamEnd cfg hq, player_worker_nil,
      List.nil_append]
  | cons r rest ih =>
    intro st post hpre
    have hr : r ≠ DecodeResult.streamEnd :=
      fun h => hpre (h ▸ List.mem_cons_self r rest)
    have hrest : DecodeResult.streamEnd ∉ rest :=
      fun h => hpre (List.mem_cons_of_mem r h)
    cases r with
    | streamEnd => exact absurd rfl hr
    | eagain =>
      rw [List.cons_append, player_worker_eagain cfg hq,
        player_worker_eagain cfg hq, ih st post hrest]
      rfl
    | audio op s =>
      by_cases ha : cfg.hasAudio = true
      · rw [List.cons_append, player_worker_audio cfg hq ha,
          player_worker_audio cfg hq ha, ih _ post hrest, List.append_assoc]
      · have ha2 : cfg.hasAudio = false := by simpa using ha
        rw [List.cons_append, player_worker_audio_skip cfg hq ha2,
          player_worker_audio_skip cfg hq ha2, ih st post hrest]
    | video index pts =>
      by_cases hv : cfg.hasVideo = true
      · cases pts with
        | none =>
          rw [List.cons_append, player_worker_video_none cfg hq hv,
            player_worker_video_none cfg hq hv, ih st post hrest]
          simp only [List.append_assoc]
        | some p =>
          rw [List.cons_append, player_worker_video_some cfg hq hv,
            player_worker_video_some cfg hq hv, ih _ post hrest]
          simp only [List.append_assoc]
      · have hv2 : cfg.hasVideo = false := by simpa using hv
        rw [List.cons_append, player_worker_video_skip cfg hq hv2,
          player_worker_video_skip cfg hq hv2, ih st post hrest]

lemma worker_no_sentinel (cfg : WorkerCfg) (hq : cfg.quitSet = false) :
    ∀ (inputs : List DecodeResult) (st : WorkerState),
      DecodeResult.streamEnd ∉ inputs →
      Emit.audioSentinel ∉ player_worker cfg st inputs ∧
      Emit.videoSentinel ∉ player_worker cfg st inputs := by
  intro inputs
  induction inputs with
  | nil =>
    intro st _
    rw [player_worker_nil]
    exact ⟨List.not_mem_nil _, List.not_mem_nil _⟩
  | cons r rest ih =>
    intro st hmem
    have hr : r ≠ DecodeResult.streamEnd :=
      fun h => hmem (h ▸ List.mem_cons_self r rest)
    have hrest : DecodeResult.streamEnd ∉ rest :=
      fun h => hmem (List.mem_cons_of_mem r h)
    cases r with
    | streamEnd => exact absurd rfl hr
    | eagain =>
      rw [player_worker_eagain cfg hq]
      obtain ⟨i1, i2⟩ := ih st hrest
      constructor
      · intro h
        rcases List.mem_cons.mp h with h2 | h2
        · cases h2
        · exact i1 h2
      · intro h
        rcases List.mem_cons.mp h with h2 | h2
        · cases h2
        · exact i2 h2
    | audio op s =>
      by_cases ha : cfg.hasAudio = true
      · rw [player_worker_audio cfg hq ha]
        obtain ⟨i1, i2⟩ := ih ⟨(stepAudio st.audio s).1, st.videoFirstPts⟩ hrest
        obtain ⟨a1, a2⟩ := stepAudio_no_sentinel st.audio s
        constructor
        · intro h
          rcases List.mem_append.mp h with h2 | h2
          · exact a1 h2
          · exact i1 h2
        · intro h
          rcases List.mem_append.mp h with h2 | h2
          · exact a2 h2
          · exact i2 h2
      · have ha2 : cfg.hasAudio = false := by simpa using ha
        rw [player_worker_audio_skip cfg hq ha2]
        exact ih st hrest
    | video index pts =>
      by_cases hv : cfg.hasVideo = true
      · obtain ⟨c1, c2, _, _⟩ := capEmitsOf_no_sentinel cfg index
        cases pts with
        | none =>
          rw [player_worker_video_none cfg hq hv]
          obtain ⟨i1, i2⟩ := ih st hrest
          constructor
          · intro h
            rcases List.mem_append.mp h with h2 | h2
            · rcases List.mem_append.mp h2 with h3 | h3
              · exact c1 h3
              · simp at h3
            · exact i1 h2
          · intro h
            rcases List.mem_append.mp h with h2 | h2
            · rcases List.mem_append.mp h2 with h3 | h3
              · exact c2 h3
              · simp at h3
            · exact i2 h2
        | some p =>
          rw [player_worker_video_some cfg hq hv]
          obtain ⟨i1, i2⟩ := ih ⟨st.audio, some (st.videoFirstPts.getD p)⟩ hrest
          constructor
          · intro h
            rcases List.mem_append.mp h with h2 | h2
            · rcases List.mem_append.mp h2 with h3 | h3
              · exact c1 h3
              · simp at h3
            · exact i1 h2
          · intro h
            rcases List.mem_append.mp h with h2 | h2
            · rcases List.mem_append.mp h2 with h3 | h3
              · exact c2 h3
              · simp at h3
            · exact i2 h2
      · have hv2 : cfg.hasVideo = false := by simpa using hv
        rw [player_worker_video_skip cfg hq hv2]
        exact ih st hrest

/-- C8: with the quit signal clear, an EAGAIN decode error only inserts a
short sleep and a retry, never terminating the stream; once end-of-stream
or an unrecoverable error occurs, the worker emits exactly its previous
output followed by one end sentinel per active track (audio and video) and
ignores everything after; and as long as no end/error result occurs, no
sentinel is ever emitted, so consumers see only frames until the
stream-ended condition. -/
theorem worker_error_handling (cfg : WorkerCfg) (st : WorkerState)
    (pre post inputs : List DecodeResult) (hq : cfg.quitSet = false)
    (hpre : DecodeResult.streamEnd ∉ pre)
    (hin : DecodeResult.streamEnd ∉ inputs) :
    player_worker cfg st (DecodeResult.eagain :: post) =
      Emit.sleepRetry :: player_worker cfg st post ∧
    player_worker cfg st (pre ++ DecodeResult.streamEnd :: post) =
      player_worker cfg st pre ++ sentinels cfg ∧
    Emit.audioSentinel ∉ player_worker cfg st inputs ∧
    Emit.videoSentinel ∉ player_worker cfg st inputs := by
  obtain ⟨n1, n2⟩ := worker_no_sentinel cfg hq inputs st hin
  exact ⟨player_worker_eagain cfg hq st post,
    worker_sentinel_at_end cfg hq pre st post hpre, n1, n2⟩

/-- Witness: the error-handling contract at a concrete input. -/
theorem worker_error_handling_witness :
    player_worker ⟨true, true, -1, false⟩ initWorker
        (DecodeResult.eagain :: []) =
      Emit.sleepRetry :: player_worker ⟨true, true, -1, false⟩ initWorker [] ∧
    player_worker ⟨true, true, -1, false⟩ initWorker
        ([DecodeResult.eagain] ++ DecodeResult.streamEnd :: []) =
      player_worker ⟨true, true, -1, false⟩ initWorker [DecodeResult.eagain] ++
        sentinels ⟨true, true, -1, false⟩ ∧
    Emit.audioSentinel ∉
      player_worker ⟨true, true, -1, false⟩ initWorker [DecodeResult.eagain] ∧
    Emit.videoSentinel ∉
      player_worker ⟨true, true, -1, false⟩ initWorker [DecodeResult.eagain] :=
  worker_error_handling ⟨true, true, -1, false⟩ initWorker
    [DecodeResult.eagain] [] [DecodeResult.eagain] rfl (by decide) (by decide)

end CustomMedia

namespace CustomMedia

lemma audioSamplesPerFrame_pos : 0 < audioSamplesPerFrame := by decide

lemma filterMap_audioFrame (g : Nat → Nat × Nat) (l : List Nat) :
    (l.map (fun i => Emit.audioFrame (g i).1 (g i).2)).filterMap audioFrameOf =
      l.map g := by
  induction l with
  | nil => rfl
  | cons i rest ih => simp [List.filterMap_cons, audioFrameOf, ih]

lemma stepAudio_filterMap (a : AudioState) (s : Nat) :
    ((stepAudio a s).2).filterMap audioFrameOf =
      (List.range ((a.fifoLen + s) / audioSamplesPerFrame)).map
        (fun i => (a.fifoPts + i * audioSamplesPerFrame, audioSamplesPerFrame)) :=
  filterMap_audioFrame
    (fun i => (a.fifoPts + i * audioSamplesPerFrame, audioSamplesPerFrame))
    (List.range ((a.fifoLen + s) / audioSamplesPerFrame))

lemma workerAudio_closed :
    ∀ (inputs : List (Option Int × Nat)) (a : AudioState) (k : Nat) (v : Option Int),
      a.fifoPts = audioSamplesPerFrame * k → a.fifoLen < audioSamplesPerFrame →
      ∃ m, ((player_worker audioCfg ⟨a, v⟩
          ((inputs.map (fun x => DecodeResult.audio x.1 x.2)) ++
            [DecodeResult.streamEnd])).filterMap audioFrameOf) =
        (List.range m).map
          (fun i => (audioSamplesPerFrame * (k + i), audioSamplesPerFrame)) := by
  intro inputs
  induction inputs with
  | nil =>
    intro a k v hpts hlen
    refine ⟨0, ?_⟩
    rw [List.map_nil, List.nil_append, player_worker_streamEnd audioCfg rfl]
    rfl
  | cons x rest ih =>
    intro a k v hpts hlen
    rw [List.map_cons, List.cons_append, player_worker_audio audioCfg rfl rfl,
      List.filterMap_append, stepAudio_filterMap]
    have hpts2 : (stepAudio a x.2).1.fifoPts =
        audioSamplesPerFrame * (k + (a.fifoLen + x.2) / audioSamplesPerFrame) := by
      show a.fifoPts + ((a.fifoLen + x.2) / audioSamplesPerFrame) *
          audioSamplesPerFrame = _
      rw [hpts]
      ring
    have hlen2 : (stepAudio a x.2).1.fifoLen < audioSamplesPerFrame := by
      show (a.fifoLen + x.2) % audioSamplesPerFrame < audioSamplesPerFrame
      exact Nat.mod_lt _ audioSamplesPerFrame_pos
    obtain ⟨m, hm⟩ := ih (stepAudio a x.2).1
      (k + (a.fifoLen + x.2) / audioSamplesPerFrame) v hpts2 hlen2
    refine ⟨(a.fifoLen + x.2) / audioSamplesPerFrame + m, ?_⟩
    rw [hm, List.range_add, List.map_append, List.map_map]
    congr 1
    · apply List.map_congr_left
      intro i _
      rw [hpts, show audioSamplesPerFrame * k + i * audioSamplesPerFrame =
        audioSamplesPerFrame * (k + i) from by ring]
    · apply List.map_congr_left
      intro i _
      show (audioSamplesPerFrame *
        (k + (a.fifoLen + x.2) / audioSamplesPerFrame + i), audioSamplesPerFrame) =
        (audioSamplesPerFrame *
          (k + ((a.fifoLen + x.2) / audioSamplesPerFrame + i)), audioSamplesPerFrame)
      rw [Nat.add_assoc]

lemma player_worker_ignore_audio_pts (cfg : WorkerCfg) :
    ∀ (inputs : List DecodeResult) (st : WorkerState),
      player_worker cfg st (inputs.map eraseAudioPts) = player_worker cfg st inputs := by
  intro inputs
  induction inputs with
  | nil => intro st; rfl
  | cons r rest ih =>
    intro st
    by_cases hq : cfg.quitSet = true
    · cases r <;>
      · show (if cfg.quitSet = true then [] else _) =
          (if cfg.quitSet = true then [] else _)
        rw [if_pos hq]
        rw [if_pos hq]
    · have hq2 : cfg.quitSet = false := by simpa using hq
      cases r with
      | eagain =>
        rw [List.map_cons]
        rw [show eraseAudioPts DecodeResult.eagain = DecodeResult.eagain from rfl,
          player_worker_eagain cfg hq2, player_worker_eagain cfg hq2, ih st]
      | streamEnd =>
        rw [List.map_cons]
        rw [show eraseAudioPts DecodeResult.streamEnd = DecodeResult.streamEnd from rfl,
          player_worker_streamEnd cfg hq2, player_worker_streamEnd cfg hq2]
      | audio op s =>
        rw [List.map_cons]
        rw [show eraseAudioPts (DecodeResult.audio op s) =
          DecodeResult.audio none s from rfl]
        by_cases ha : cfg.hasAudio = true
        · rw [player_worker_audio cfg hq2 ha, player_worker_audio cfg hq2 ha, ih]
        · have ha2 : cfg.hasAudio = false := by simpa using ha
          rw [player_worker_audio_skip cfg hq2 ha2,
            player_worker_audio_skip cfg hq2 ha2, ih st]
      | video index pts =>
        rw [List.map_cons]
        rw [show eraseAudioPts (DecodeResult.video index pts) =
          DecodeResult.video index pts from rfl]
        by_cases hv : cfg.hasVideo = true
        · cases pts with
          | none =>
            rw [player_worker_video_none cfg hq2 hv,
              player_worker_video_none cfg hq2 hv, ih st]
          | some p =>
            rw [player_worker_video_some cfg hq2 hv,
              player_worker_video_some cfg hq2 hv, ih]
        · have hv2 : cfg.hasVideo = false := by simpa using hv
          rw [player_worker_video_skip cfg hq2 hv2,
            player_worker_video_skip cfg hq2 hv2, ih st]

/-- C3: for every decoded audio input (after resampling to s16/stereo/48
kHz), the emitted audio frames each hold exactly `int(48000 × 0.020) =
960` samples and their pts values are `960 * i` for `i = 0, 1, …` — a
gap-free arithmetic progression starting at 0 with step equal to each
frame's sample count — and the output is unchanged when every upstream
timestamp is erased, so it is independent of the original timestamps. -/
theorem audio_pts_progression (inputs : List (Option Int × Nat)) :
    (workerAudioFrames inputs =
      (List.range (workerAudioFrames inputs).length).map
        (fun i => (960 * i, 960)) ∧
      ∀ fr ∈ workerAudioFrames inputs, fr.2 = 960) ∧
    workerAudioFrames inputs =
      workerAudioFrames (inputs.map (fun x => ((none : Option Int), x.2))) := by
  obtain ⟨m, hm⟩ := workerAudio_closed inputs ⟨0, 0, 0⟩ 0 none rfl (by decide)
  have hmain : workerAudioFrames inputs =
      (List.range m).map (fun i => (960 * i, 960)) := by
    show ((player_worker audioCfg ⟨⟨0, 0, 0⟩, none⟩
      ((inputs.map (fun x => DecodeResult.audio x.1 x.2)) ++
        [DecodeResult.streamEnd])).filterMap audioFrameOf) = _
    rw [hm]
    apply List.map_congr_left
    intro i _
    show ((960 : Nat) * (0 + i), (960 : Nat)) = (960 * i, 960)
    rw [Nat.zero_add]
  refine ⟨⟨?_, ?_⟩, ?_⟩
  · rw [hmain, List.length_map, List.length_range]
  · intro fr hfr
    rw [hmain] at hfr
    obtain ⟨i, _, hi⟩ := List.mem_map.mp hfr
    rw [← hi]
  · have h1 : (inputs.map (fun x => ((none : Option Int), x.2))).map
        (fun x => DecodeResult.audio x.1 x.2) ++ [DecodeResult.streamEnd] =
      ((inputs.map (fun x => DecodeResult.audio x.1 x.2)) ++
        [DecodeResult.streamEnd]).map eraseAudioPts := by
      rw [List.map_append, List.map_map, List.map_map]
      rfl
    show workerAudioFrames inputs =
      ((player_worker audioCfg initWorker
        ((inputs.map (fun x => ((none : Option Int), x.2))).map
          (fun x => DecodeResult.audio x.1 x.2) ++
          [DecodeResult.streamEnd])).filterMap audioFrameOf)
    rw [h1, player_worker_ignore_audio_pts audioCfg]
    rfl

end CustomMedia

namespace CustomMedia

lemma correctedList_some (p0 : Int) :
    ∀ l : List Int, correctedList (some p0) l = l.map (fun p => p - p0) := by
  intro l
  induction l with
  | nil => rfl
  | cons p rest ih =>
    show (p - p0) :: correctedList (some p0) rest =
      (p - p0) :: rest.map (fun q => q - p0)
    rw [ih]

lemma correctedList_none :
    ∀ l : List Int, correctedList none l =
      (match l with
        | [] => []
        | p0 :: _ => l.map (fun p => p - p0)) := by
  intro l
  cases l with
  | nil => rfl
  | cons p0 rest =>
    show (p0 - p0) :: correctedList (some p0) rest =
      (p0 :: rest).map (fun p => p - p0)
    rw [correctedList_some p0 rest, List.map_cons]

lemma workerVideo_closed (cap : Int) :
    ∀ (inputs : List (Nat × Option Int)) (a : AudioState) (fp : Option Int),
      ((player_worker (videoCfg cap) ⟨a, fp⟩
        ((inputs.map (fun x => DecodeResult.video x.1 x.2)) ++
          [DecodeResult.streamEnd])).filterMap videoPtsOf =
        correctedList fp (inputs.filterMap Prod.snd)) ∧
      ((player_worker (videoCfg cap) ⟨a, fp⟩
        ((inputs.map (fun x => DecodeResult.video x.1 x.2)) ++
          [DecodeResult.streamEnd])).count Emit.warnNoPts =
        (inputs.map Prod.snd).count none) := by
  intro inputs
  induction inputs with
  | nil =>
    intro a fp
    rw [List.map_nil, List.nil_append, player_worker_streamEnd (videoCfg cap) rfl]
    exact ⟨rfl, rfl⟩
  | cons x rest ih =>
    intro a fp
    obtain ⟨idx, pts⟩ := x
    obtain ⟨c1, c2, c3, c4⟩ := capEmitsOf_no_sentinel (videoCfg cap) idx
    rw [List.map_cons, List.cons_append]
    cases pts with
    | none =>
      rw [player_worker_video_none (videoCfg cap) rfl rfl]
      obtain ⟨ih1, ih2⟩ := ih a fp
      constructor
      · rw [List.filterMap_append, List.filterMap_append, c3, ih1]
        have hsnd : List.filterMap Prod.snd
            (((idx, none) : Nat × Option Int) :: rest) =
            List.filterMap Prod.snd rest := rfl
        rw [hsnd]
        simp [videoPtsOf]
      · rw [List.count_append, List.count_append, c4, ih2]
        have hsnd : List.map Prod.snd (((idx, none) : Nat × Option Int) :: rest) =
            none :: List.map Prod.snd rest := rfl
        rw [hsnd]
        simp [List.count_cons]
        omega
    | some p =>
      rw [player_worker_video_some (videoCfg cap) rfl rfl]
      obtain ⟨ih1, ih2⟩ := ih a (some (fp.getD p))
      constructor
      · rw [List.filterMap_append, List.filterMap_append, c3, ih1]
        have hsnd : List.filterMap Prod.snd
            (((idx, some p) : Nat × Option Int) :: rest) =
            p :: List.filterMap Prod.snd rest := rfl
        have hvf : List.filterMap videoPtsOf [Emit.videoFrame (p - fp.getD p)] =
            [p - fp.getD p] := rfl
        have hcl : correctedList fp (p :: List.filterMap Prod.snd rest) =
            (p - fp.getD p) ::
              correctedList (some (fp.getD p)) (List.filterMap Prod.snd rest) := rfl
        rw [hsnd, hvf, hcl]
        simp
      · rw [List.count_append, List.count_append, c4, ih2]
        have hsnd : List.map Prod.snd (((idx, some p) : Nat × Option Int) :: rest) =
            some p :: List.map Prod.snd rest := rfl
        rw [hsnd]
        simp [List.count_cons]

/-- C4: video frames lacking a usable timestamp are dropped non-fatally
with exactly one warning each; the emitted corrected pts sequence equals
the retained original pts each shifted by the first retained pts, so the
first emitted frame has corrected pts 0 and every later one has pts equal
to its original minus the first retained original; and monotone source pts
stay monotone. -/
theorem video_pts_correction (cap : Int) (inputs : List (Nat × Option Int)) :
    workerVideoPts cap inputs =
      (match inputs.filterMap Prod.snd with
        | [] => []
        | p0 :: _ => (inputs.filterMap Prod.snd).map (fun p => p - p0)) ∧
    (workerVideoOut cap inputs).count Emit.warnNoPts =
      (inputs.map Prod.snd).count none ∧
    ((inputs.filterMap Prod.snd).Chain' (· ≤ ·) →
      (workerVideoPts cap inputs).Chain' (· ≤ ·)) := by
  obtain ⟨h1, h2⟩ := workerVideo_closed cap inputs ⟨0, 0, 0⟩ none
  have hclosed : workerVideoPts cap inputs =
      (match inputs.filterMap Prod.snd with
        | [] => []
        | p0 :: _ => (inputs.filterMap Prod.snd).map (fun p => p - p0)) := by
    have hpts : workerVideoPts cap inputs =
        correctedList none (inputs.filterMap Prod.snd) := h1
    rw [hpts, correctedList_none]
  refine ⟨hclosed, h2, ?_⟩
  intro hchain
  rw [hclosed]
  cases hk : inputs.filterMap Prod.snd with
  | nil => simp
  | cons p0 ks =>
    rw [hk] at hchain
    show ((p0 :: ks).map (fun p => p - p0)).Chain' (· ≤ ·)
    exact (List.chain'_map _).mpr (hchain.imp (fun a b hab => by omega))

/-- Witness: monotone retained pts yield a monotone corrected sequence. -/
theorem video_pts_correction_witness :
    (([((0 : Nat), some (5 : Int)), (1, some 7)].filterMap Prod.snd).Chain'
      (· ≤ ·)) ∧
    (workerVideoPts (-1) [((0 : Nat), some (5 : Int)), (1, some 7)]).Chain'
      (· ≤ ·) := by
  have hch : (([((0 : Nat), some (5 : Int)), (1, some 7)].filterMap
      Prod.snd).Chain' (· ≤ ·)) := by
    show (([5, 7] : List Int)).Chain' (· ≤ ·)
    rw [List.chain'_cons]
    exact ⟨by norm_num, List.chain'_singleton 7⟩
  exact ⟨hch,
    (video_pts_correction (-1) [((0 : Nat), some (5 : Int)), (1, some 7)]).2.2 hch⟩

end CustomMedia
